import Mathlib

/-!
Verification of the CommonMark fixture synchronization scripts of mdcat
(src/tests/commonmark-spec/update.py and the identical copy under
src/pulldown-cmark-tty/tests/render/md/commonmark-spec/update.py) and of the
changelog prerelease hook (src/scripts/prerelease-hook.py).

The directory touched by a script is modelled as an association list of
(file name, file content) pairs over its immediate entries; a glob pattern of
the form *suffix is modelled as a suffix test on the entry name, matching the
semantics of pathlib Path.glob on a flat directory.
-/

/-- Numeric value of a digit character. -/
def digitVal (c : Char) : Nat := c.toNat - 48

/-- Value of a list of digit characters read left to right in base 10. -/
def valOfDigits (cs : List Char) : Nat := cs.foldl (fun a c => 10 * a + digitVal c) 0

/-- Decimal digit characters of a natural number, with an explicit fuel bound
so the recursion is structural. The fuel must exceed the rendered number. -/
def decimalCharsAux : Nat → Nat → List Char
  | 0, _ => []
  | fuel + 1, n =>
    if n < 10 then [Nat.digitChar n]
    else decimalCharsAux fuel (n / 10) ++ [Nat.digitChar (n % 10)]

/-- Decimal digit characters of a natural number, most significant first. -/
def decimalChars (n : Nat) : List Char := decimalCharsAux (n + 1) n

/-- Model of the Python format specification 0>3 applied to a nonnegative
integer, from the source line building the fixture file name: the decimal
rendering, left-padded with the character 0 to a minimum width of three. -/
def padChars (n : Nat) : List Char :=
  List.replicate (3 - (decimalChars n).length) '0' ++ decimalChars n

/-- String form of the zero-padded example number. -/
def padNumber (n : Nat) : String := ⟨padChars n⟩

/-- Normalization of the section label, from the source line
section = example[...].lower().replace(...): lower-case each character, then
replace each space by an underscore. -/
def normalizeSection (s : String) : String :=
  ⟨s.data.map fun c => if c.toLower = ' ' then '_' else c.toLower⟩

/-- Fixture file name of one example: the zero-padded number, a dash, the
normalized section label and the suffix .md. -/
def fixtureFilename (number : Nat) (sectionLabel : String) : String :=
  padNumber number ++ "-" ++ normalizeSection sectionLabel ++ ".md"

/-- Decimal number encoded by the digit characters at the front of a fixture
file name. -/
def extractNumber (name : String) : Nat := valOfDigits (name.data.takeWhile Char.isDigit)

theorem valOfDigits_append_singleton (cs : List Char) (c : Char) :
    valOfDigits (cs ++ [c]) = 10 * valOfDigits cs + digitVal c := by
  simp [valOfDigits, List.foldl_append]

theorem digitChar_facts :
    ∀ d, d < 10 → (Nat.digitChar d).isDigit = true ∧ digitVal (Nat.digitChar d) = d := by
  decide

theorem decimalCharsAux_spec (fuel : Nat) :
    ∀ n, n < fuel →
      (∀ c ∈ decimalCharsAux fuel n, c.isDigit = true) ∧
        valOfDigits (decimalCharsAux fuel n) = n := by
  induction fuel with
  | zero => intro n h; omega
  | succ f ih =>
    intro n h
    by_cases h10 : n < 10
    · refine ⟨?_, ?_⟩
      · intro c hc
        simp only [decimalCharsAux, if_pos h10, List.mem_singleton] at hc
        subst hc
        exact (digitChar_facts n h10).1
      · simp only [decimalCharsAux, if_pos h10, valOfDigits, List.foldl_cons, List.foldl_nil]
        have := (digitChar_facts n h10).2
        omega
    · have hdiv : n / 10 < f := by
        have h1 : n / 10 < n := Nat.div_lt_self (by omega) (by omega)
        omega
      obtain ⟨ihd, ihv⟩ := ih (n / 10) hdiv
      refine ⟨?_, ?_⟩
      · intro c hc
        simp only [decimalCharsAux, if_neg h10, List.mem_append, List.mem_singleton] at hc
        rcases hc with hc | hc
        · exact ihd c hc
        · subst hc
          exact (digitChar_facts (n % 10) (Nat.mod_lt n (by omega))).1
      · simp only [decimalCharsAux, if_neg h10]
        rw [valOfDigits_append_singleton, ihv,
          (digitChar_facts (n % 10) (Nat.mod_lt n (by omega))).2]
        omega

theorem decimalChars_isDigit (n : Nat) : ∀ c ∈ decimalChars n, c.isDigit = true :=
  (decimalCharsAux_spec (n + 1) n (Nat.lt_succ_self n)).1

theorem valOfDigits_decimalChars (n : Nat) : valOfDigits (decimalChars n) = n :=
  (decimalCharsAux_spec (n + 1) n (Nat.lt_succ_self n)).2

theorem decimalCharsAux_length_le :
    ∀ fuel n k, n < fuel → n < 10 ^ (k + 1) → (decimalCharsAux fuel n).length ≤ k + 1 := by
  intro fuel
  induction fuel with
  | zero => intro n k h; omega
  | succ f ih =>
    intro n k h hk
    by_cases h10 : n < 10
    · simp only [decimalCharsAux, if_pos h10, List.length_singleton]
      omega
    · cases k with
      | zero =>
        exfalso
        have h1 : (10 : Nat) ^ (0 + 1) = 10 := by norm_num
        omega
      | succ k0 =>
        have hdiv : n / 10 < f := by
          have h1 : n / 10 < n := Nat.div_lt_self (by omega) (by omega)
          omega
        have hdivk : n / 10 < 10 ^ (k0 + 1) := by
          rw [Nat.div_lt_iff_lt_mul (by omega)]
          calc n < 10 ^ (k0 + 1 + 1) := hk
            _ = 10 ^ (k0 + 1) * 10 := by ring
        have := ih (n / 10) k0 hdiv hdivk
        simp only [decimalCharsAux, if_neg h10, List.length_append, List.length_singleton]
        omega

theorem decimalChars_length_le_three {n : Nat} (h : n ≤ 999) : (decimalChars n).length ≤ 3 :=
  decimalCharsAux_length_le (n + 1) n 2 (Nat.lt_succ_self n) (by norm_num; omega)

theorem valOfDigits_replicate_zero (k : Nat) (cs : List Char) :
    valOfDigits (List.replicate k '0' ++ cs) = valOfDigits cs := by
  induction k with
  | zero => simp
  | succ m ih =>
    have : List.replicate (m + 1) '0' ++ cs = '0' :: (List.replicate m '0' ++ cs) := by
      simp [List.replicate_succ]
    rw [this]
    simp only [valOfDigits, List.foldl_cons] at ih ⊢
    have h0 : (10 : Nat) * 0 + digitVal '0' = 0 := by decide
    rw [h0]
    exact ih

theorem valOfDigits_padChars (n : Nat) : valOfDigits (padChars n) = n := by
  rw [padChars, valOfDigits_replicate_zero, valOfDigits_decimalChars]

theorem padChars_isDigit (n : Nat) : ∀ c ∈ padChars n, c.isDigit = true := by
  intro c hc
  rcases List.mem_append.mp hc with hc | hc
  · rw [List.eq_of_mem_replicate hc]
    decide
  · exact decimalChars_isDigit n c hc

theorem takeWhile_append_cons {p : Char → Bool} (l₁ : List Char) (c : Char) (l₂ : List Char)
    (h₁ : ∀ a ∈ l₁, p a = true) (hc : p c = false) :
    (l₁ ++ c :: l₂).takeWhile p = l₁ := by
  induction l₁ with
  | nil => simp [List.takeWhile_cons, hc]
  | cons a l ih =>
    have ha : p a = true := h₁ a (List.mem_cons_self a l)
    simp only [List.cons_append, List.takeWhile_cons, ha, if_true]
    rw [ih fun b hb => h₁ b (List.mem_cons_of_mem a hb)]

theorem fixtureFilename_data (n : Nat) (s : String) :
    (fixtureFilename n s).data = padChars n ++ '-' :: ((normalizeSection s).data ++ ".md".data) := by
  simp [fixtureFilename, padNumber, String.data_append, List.append_assoc]

theorem extractNumber_fixtureFilename (n : Nat) (s : String) :
    extractNumber (fixtureFilename n s) = n := by
  rw [extractNumber, fixtureFilename_data,
    takeWhile_append_cons (padChars n) '-' _ (fun a ha => padChars_isDigit n a ha) (by decide),
    valOfDigits_padChars]

/-- Directory state: the immediate plain files of the target directory, as
(name, content) pairs. -/
abbrev DirState := List (String × String)

/-- Model of one pathlib glob pattern of the form *suffix over the immediate
entries of a directory: the entry name ends with the given suffix. -/
def globSuffix (suffix : String) (name : String) : Bool :=
  decide (suffix.data <:+ name.data)

/-- Name matches one of the three fixture-artifact patterns of the deletion
phase: *.md, *.expected or *.actual. -/
def matchesFixturePattern (name : String) : Bool :=
  globSuffix ".md" name || globSuffix ".expected" name || globSuffix ".actual" name

/-- Deletion phase of main: three glob loops unlink every immediate file whose
name matches *.md, then *.expected, then *.actual. -/
def resetFixtureDir (d : DirState) : DirState :=
  ((d.filter fun f => !globSuffix ".md" f.1).filter
    fun f => !globSuffix ".expected" f.1).filter
    fun f => !globSuffix ".actual" f.1

/-- Model of Path.write_text: create the file with the given content,
overwriting any existing entry of that name. -/
def writeFile (d : DirState) (name content : String) : DirState :=
  (d.filter fun f => f.1 != name) ++ [(name, content)]

/-- Content of the file with the given name, if present. -/
def readFile (d : DirState) (name : String) : Option String :=
  (d.find? fun f => f.1 == name).map Prod.snd

/-- Names of the files of a directory. -/
def fileNames (d : DirState) : List String := d.map Prod.fst

/-- One record of the decoded spec.json array. A field is none when the
corresponding key is absent from the record; accessing an absent key raises
KeyError in the source. -/
structure RawRecord where
  exampleField : Option Nat
  sectionField : Option String
  markdownField : Option String
  deriving DecidableEq

/-- Outcome of the urlopen fetch of spec.json: either the payload decoded by
json.load, or a transport failure raised before json.load runs. -/
inductive FetchOutcome where
  | success (payload : List RawRecord)
  | transportFailure
  deriving DecidableEq

/-- Result of a run of main over the modelled directory: ok carries the final
directory, keyError the directory at the moment a record field access raises,
and fetchFailed the directory after the deletion phase when the fetch raises. -/
inductive RunResult where
  | ok (dir : DirState)
  | keyError (dir : DirState)
  | fetchFailed (dir : DirState)
  deriving DecidableEq

/-- Write loop of main: for each record in document order, read the example
field, the section field and the markdown field, derive the fixture file name,
and write the markdown content; a missing field aborts the loop at that
record, leaving the files written so far in place. -/
def writeLoop : DirState → List RawRecord → RunResult
  | d, [] => .ok d
  | d, r :: rs =>
    match r.exampleField with
    | none => .keyError d
    | some number =>
      match r.sectionField with
      | none => .keyError d
      | some sectionLabel =>
        match r.markdownField with
        | none => .keyError d
        | some markdown =>
          writeLoop (writeFile d (fixtureFilename number sectionLabel) markdown) rs

/-- Main of src/tests/commonmark-spec/update.py over the modelled directory:
delete all fixture artifacts, then fetch and decode the spec document, then
write one fixture file per example. -/
def update_main (d : DirState) (fetch : FetchOutcome) : RunResult :=
  let d1 := resetFixtureDir d
  match fetch with
  | .transportFailure => .fetchFailed d1
  | .success payload => writeLoop d1 payload

/-- One decoded example of the spec document, with all three fields present. -/
structure Example where
  number : Nat
  sectionLabel : String
  markdown : String
  deriving DecidableEq

/-- Record of a fully formed example as decoded from the payload. -/
def toRaw (e : Example) : RawRecord := ⟨some e.number, some e.sectionLabel, some e.markdown⟩

/-- Fixture file name of an example. -/
def exampleFilename (e : Example) : String := fixtureFilename e.number e.sectionLabel

/-- One iteration of the write loop on a fully formed example. -/
def writeExample (d : DirState) (e : Example) : DirState :=
  writeFile d (exampleFilename e) e.markdown

theorem filter_filter_of_imp {α : Type} (p q : α → Bool) (l : List α)
    (h : ∀ a, p a = true → q a = true) :
    (l.filter q).filter p = l.filter p := by
  induction l with
  | nil => rfl
  | cons a l ih =>
    by_cases hq : q a = true
    · by_cases hp : p a = true <;> simp [List.filter_cons, hq, hp, ih]
    · have hp : p a = false := by
        cases hpa : p a
        · rfl
        · exact absurd (h a hpa) hq
      simp [List.filter_cons, hq, hp, ih]

theorem resetFixtureDir_eq (d : DirState) :
    resetFixtureDir d = d.filter fun f => !matchesFixturePattern f.1 := by
  unfold resetFixtureDir
  rw [List.filter_filter, List.filter_filter]
  apply List.filter_congr
  intro f _
  simp only [matchesFixturePattern, Bool.not_or]
  cases globSuffix ".md" f.1 <;> cases globSuffix ".expected" f.1 <;>
    cases globSuffix ".actual" f.1 <;> rfl

theorem mem_resetFixtureDir_not_matches {d : DirState} {f : String × String}
    (h : f ∈ resetFixtureDir d) : matchesFixturePattern f.1 = false := by
  rw [resetFixtureDir_eq] at h
  have := (List.mem_filter.mp h).2
  simpa using this

theorem mem_fileNames_resetFixtureDir_not_matches {d : DirState} {name : String}
    (h : name ∈ fileNames (resetFixtureDir d)) : matchesFixturePattern name = false := by
  obtain ⟨f, hf, rfl⟩ := List.mem_map.mp h
  exact mem_resetFixtureDir_not_matches hf

theorem resetFixtureDir_idem (d : DirState) :
    resetFixtureDir (resetFixtureDir d) = resetFixtureDir d := by
  rw [resetFixtureDir_eq d, resetFixtureDir_eq]
  exact filter_filter_of_imp _ _ d fun a h => h

theorem resetFixtureDir_writeFile (d : DirState) (n c : String)
    (h : matchesFixturePattern n = true) :
    resetFixtureDir (writeFile d n c) = resetFixtureDir d := by
  rw [resetFixtureDir_eq, resetFixtureDir_eq, writeFile, List.filter_append]
  have h2 : List.filter (fun f => !matchesFixturePattern f.1) [(n, c)] = [] := by
    simp [h]
  rw [h2, List.append_nil]
  apply filter_filter_of_imp
  intro a ha
  have hne : a.1 ≠ n := by
    intro heq
    rw [heq, h] at ha
    simp at ha
  simpa using hne

theorem globSuffix_md_fixtureFilename (n : Nat) (s : String) :
    globSuffix ".md" (fixtureFilename n s) = true := by
  rw [globSuffix, decide_eq_true_iff, fixtureFilename_data]
  have hassoc : padChars n ++ '-' :: ((normalizeSection s).data ++ ".md".data)
      = (padChars n ++ '-' :: (normalizeSection s).data) ++ ".md".data := by
    simp [List.cons_append, List.append_assoc]
  rw [hassoc]
  exact List.suffix_append _ _

theorem matchesFixturePattern_fixtureFilename (n : Nat) (s : String) :
    matchesFixturePattern (fixtureFilename n s) = true := by
  simp [matchesFixturePattern, globSuffix_md_fixtureFilename]

theorem matchesFixturePattern_exampleFilename (e : Example) :
    matchesFixturePattern (exampleFilename e) = true :=
  matchesFixturePattern_fixtureFilename e.number e.sectionLabel

theorem find?_filter_of_imp {α : Type} (p q : α → Bool) (l : List α)
    (h : ∀ a, p a = true → q a = true) :
    (l.filter q).find? p = l.find? p := by
  induction l with
  | nil => rfl
  | cons a l ih =>
    by_cases hq : q a = true
    · by_cases hp : p a = true <;> simp [List.filter_cons, List.find?_cons, hq, hp, ih]
    · have hp : p a = false := by
        cases hpa : p a
        · rfl
        · exact absurd (h a hpa) hq
      simp [List.filter_cons, List.find?_cons, hq, hp, ih]

theorem readFile_writeFile_self (d : DirState) (n c : String) :
    readFile (writeFile d n c) n = some c := by
  rw [readFile, writeFile, List.find?_append]
  have h1 : (d.filter fun f => f.1 != n).find? (fun f => f.1 == n) = none := by
    rw [List.find?_eq_none]
    intro x hx
    have := (List.mem_filter.mp hx).2
    simp only [bne_iff_ne, ne_eq, decide_eq_true_eq] at this
    simp [this]
  rw [h1]
  simp [List.find?_cons]

theorem readFile_writeFile_ne (d : DirState) (n c m : String) (h : m ≠ n) :
    readFile (writeFile d n c) m = readFile d m := by
  rw [readFile, writeFile, List.find?_append]
  have h1 : List.find? (fun f => f.1 == m) [(n, c)] = none := by
    simp [List.find?_cons, Ne.symm h]
  rw [h1]
  have h2 : (d.filter fun f => f.1 != n).find? (fun f => f.1 == m) =
      d.find? (fun f => f.1 == m) := by
    apply find?_filter_of_imp
    intro a ha
    simp only [beq_iff_eq] at ha
    simp [ha, h]
  rw [h2, Option.or_none, readFile]

theorem readFile_foldl_of_not_written (es : List Example) : ∀ (d : DirState) (name : String),
    (∀ e ∈ es, exampleFilename e ≠ name) →
    readFile (es.foldl writeExample d) name = readFile d name := by
  induction es with
  | nil => intro d name _; rfl
  | cons e es ih =>
    intro d name h
    rw [List.foldl_cons]
    rw [ih _ name fun x hx => h x (List.mem_cons_of_mem e hx)]
    exact readFile_writeFile_ne d (exampleFilename e) e.markdown name
      (Ne.symm (h e (List.mem_cons_self e es)))

theorem mem_fileNames_writeFile (d : DirState) (n c name : String) :
    name ∈ fileNames (writeFile d n c) ↔ name = n ∨ name ∈ fileNames d := by
  simp only [fileNames, writeFile, List.map_append, List.mem_append, List.mem_map,
    List.mem_filter, bne_iff_ne, ne_eq, List.map_cons, List.map_nil, List.mem_singleton]
  constructor
  · rintro (⟨a, ⟨had, _⟩, rfl⟩ | rfl)
    · exact Or.inr ⟨a, had, rfl⟩
    · exact Or.inl rfl
  · rintro (rfl | ⟨a, had, rfl⟩)
    · exact Or.inr rfl
    · by_cases h : a.1 = n
      · exact Or.inr h
      · exact Or.inl ⟨a, ⟨had, h⟩, rfl⟩

theorem mem_fileNames_foldl (es : List Example) : ∀ (d : DirState) (name : String),
    name ∈ fileNames (es.foldl writeExample d) ↔
      name ∈ es.map exampleFilename ∨ name ∈ fileNames d := by
  induction es with
  | nil => intro d name; simp
  | cons e es ih =>
    intro d name
    rw [List.foldl_cons, List.map_cons]
    rw [ih, List.mem_cons]
    rw [writeExample, mem_fileNames_writeFile]
    tauto

theorem writeLoop_map_toRaw (es : List Example) : ∀ d : DirState,
    writeLoop d (es.map toRaw) = .ok (es.foldl writeExample d) := by
  induction es with
  | nil => intro d; rfl
  | cons e es ih =>
    intro d
    rw [List.map_cons, List.foldl_cons]
    simp only [writeLoop, toRaw]
    exact ih _

theorem update_main_success (d : DirState) (es : List Example) :
    update_main d (.success (es.map toRaw)) =
      .ok (es.foldl writeExample (resetFixtureDir d)) := by
  rw [update_main, writeLoop_map_toRaw]

/-- Normalization of the section label as written in
src/pulldown-cmark-tty/tests/render/md/commonmark-spec/update.py: lower-case
each character, then replace each space by an underscore. -/
def normalizeSectionR (s : String) : String :=
  ⟨s.data.map fun c => if c.toLower = ' ' then '_' else c.toLower⟩

/-- Fixture file name as written in the pulldown-cmark-tty copy of the
script. -/
def fixtureFilenameR (number : Nat) (sectionLabel : String) : String :=
  padNumber number ++ "-" ++ normalizeSectionR sectionLabel ++ ".md"

/-- Deletion phase of main in the pulldown-cmark-tty copy of the script. -/
def resetFixtureDirR (d : DirState) : DirState :=
  ((d.filter fun f => !globSuffix ".md" f.1).filter
    fun f => !globSuffix ".expected" f.1).filter
    fun f => !globSuffix ".actual" f.1

/-- Write loop of main in the pulldown-cmark-tty copy of the script. -/
def writeLoopR : DirState → List RawRecord → RunResult
  | d, [] => .ok d
  | d, r :: rs =>
    match r.exampleField with
    | none => .keyError d
    | some number =>
      match r.sectionField with
      | none => .keyError d
      | some sectionLabel =>
        match r.markdownField with
        | none => .keyError d
        | some markdown =>
          writeLoopR (writeFile d (fixtureFilenameR number sectionLabel) markdown) rs

/-- Main of src/pulldown-cmark-tty/tests/render/md/commonmark-spec/update.py
over the modelled directory. -/
def update_mainR (d : DirState) (fetch : FetchOutcome) : RunResult :=
  let d1 := resetFixtureDirR d
  match fetch with
  | .transportFailure => .fetchFailed d1
  | .success payload => writeLoopR d1 payload

/-- Observable side effects of the prerelease hook. -/
inductive HookAction where
  | readChangelog
  | writeChangelog (content : String)
  | check_call (argv : List String)
  | printLine (line : String)
  deriving DecidableEq

/-- Model of is_prerelease from src/scripts/prerelease-hook.py: the version
string contains a dash. -/
def is_prerelease (version : String) : Bool := version.data.contains '-'

/-- Model of update_changelog from src/scripts/prerelease-hook.py: read the
changelog, insert a dated release heading after each Unreleased heading
(re.sub with a literal pattern replaces every occurrence, as String.replace
does), write the result back, and stage the changelog. Returns the actions
performed, in order. -/
def update_changelog (changelog today version : String) : List HookAction :=
  let with_new_version :=
    changelog.replace "## [Unreleased]\n"
      ("## [Unreleased]\n\n## [" ++ version ++ "] – " ++ today ++ "\n")
  [HookAction.readChangelog, HookAction.writeChangelog with_new_version,
    HookAction.check_call ["git", "add", "CHANGELOG.md"]]

/-- Process environment as read by the prerelease hook; a field is none when
the variable is absent. -/
structure HookEnv where
  PREV_VERSION : Option String
  NEW_VERSION : Option String
  DRY_RUN : Option String
  deriving DecidableEq

/-- Main of src/scripts/prerelease-hook.py: read PREV_VERSION and NEW_VERSION
(a missing variable raises KeyError), read the DRY_RUN flag, and unless dry
running, update the changelog for non-prerelease versions and stage the
lockfile. The changelog content and the current date are passed in as the
state read by update_changelog. -/
def prerelease_hook_main (env : HookEnv) (changelog today : String) :
    Except String (List HookAction) :=
  match env.PREV_VERSION with
  | none => .error "KeyError: PREV_VERSION"
  | some _ =>
    match env.NEW_VERSION with
    | none => .error "KeyError: NEW_VERSION"
    | some next_version =>
      let dry_run := env.DRY_RUN == some "true"
      if !dry_run then
        .ok
          ((if !is_prerelease next_version then
              update_changelog changelog today next_version
            else []) ++
            [HookAction.check_call ["git", "add", "Cargo.lock"]])
      else
        .ok [HookAction.printLine "DRY RUN; skipping changelog update"]

theorem resetFixtureDir_foldl (es : List Example) : ∀ d : DirState,
    resetFixtureDir (es.foldl writeExample d) = resetFixtureDir d := by
  induction es with
  | nil => intro d; rfl
  | cons e es ih =>
    intro d
    rw [List.foldl_cons, ih]
    exact resetFixtureDir_writeFile d (exampleFilename e) e.markdown
      (matchesFixturePattern_exampleFilename e)

theorem writeLoop_append_map (es : List Example) : ∀ (d : DirState) (rs : List RawRecord),
    writeLoop d (es.map toRaw ++ rs) = writeLoop (es.foldl writeExample d) rs := by
  induction es with
  | nil => intro d rs; rfl
  | cons e es ih =>
    intro d rs
    rw [List.map_cons, List.cons_append, List.foldl_cons]
    simp only [writeLoop, toRaw]
    exact ih _ _

/-- C1: for every decoded spec document with unique example numbers, after a
successful run of main the set of fixture files in the target directory equals
exactly the set of generated file names: every generated file name is present,
no file matching the fixture patterns from before the run remains unless its
name coincides with a generated file name, and no file name is produced
twice. -/
theorem commonmark_fixture_set_invariant (d : DirState) (es : List Example)
    (h : (es.map Example.number).Nodup) :
    ∃ dfin, update_main d (.success (es.map toRaw)) = .ok dfin ∧
      (∀ e ∈ es, exampleFilename e ∈ fileNames dfin) ∧
      (∀ name, matchesFixturePattern name = true → name ∈ fileNames dfin →
        name ∈ es.map exampleFilename) ∧
      (es.map exampleFilename).Nodup := by
  refine ⟨es.foldl writeExample (resetFixtureDir d), update_main_success d es, ?_, ?_, ?_⟩
  · intro e he
    rw [mem_fileNames_foldl]
    exact Or.inl (List.mem_map.mpr ⟨e, he, rfl⟩)
  · intro name hm hmem
    rw [mem_fileNames_foldl] at hmem
    rcases hmem with hgen | hpre
    · exact hgen
    · have := mem_fileNames_resetFixtureDir_not_matches hpre
      rw [hm] at this
      cases this
  · have hmap : es.map Example.number = (es.map exampleFilename).map extractNumber := by
      rw [List.map_map]
      apply List.map_congr_left
      intro e _
      exact (extractNumber_fixtureFilename e.number e.sectionLabel).symm
    rw [hmap] at h
    exact List.Nodup.of_map extractNumber h

theorem commonmark_fixture_set_invariant_witness :
    ((([⟨1, "Foo bar", "A"⟩, ⟨2, "Baz", "B"⟩] : List Example).map Example.number).Nodup) ∧
    (∃ dfin,
      update_main [("017-old.md", "stale"), ("notes.txt", "keep")]
          (.success (([⟨1, "Foo bar", "A"⟩, ⟨2, "Baz", "B"⟩] : List Example).map toRaw)) =
        .ok dfin ∧
      (∀ e ∈ ([⟨1, "Foo bar", "A"⟩, ⟨2, "Baz", "B"⟩] : List Example),
        exampleFilename e ∈ fileNames dfin) ∧
      (∀ name, matchesFixturePattern name = true → name ∈ fileNames dfin →
        name ∈ ([⟨1, "Foo bar", "A"⟩, ⟨2, "Baz", "B"⟩] : List Example).map exampleFilename) ∧
      (([⟨1, "Foo bar", "A"⟩, ⟨2, "Baz", "B"⟩] : List Example).map exampleFilename).Nodup) :=
  ⟨by decide,
    commonmark_fixture_set_invariant [("017-old.md", "stale"), ("notes.txt", "keep")]
      [⟨1, "Foo bar", "A"⟩, ⟨2, "Baz", "B"⟩] (by decide)⟩

/-- C2, counterexample: with two examples normalizing to the same file name,
the run succeeds but the file named after the earlier example does not hold
the markdown of that example, so completeness without a uniqueness
precondition fails. -/
theorem completeness_counterexample :
    update_main []
        (.success (([⟨1, "Sec", "first"⟩, ⟨1, "Sec", "second"⟩] : List Example).map toRaw)) =
      .ok [("001-sec.md", "second")] ∧
    exampleFilename (⟨1, "Sec", "first"⟩ : Example) = "001-sec.md" ∧
    readFile [("001-sec.md", "second")] "001-sec.md" ≠ some "first" :=
  ⟨by decide, by decide, by decide⟩

/-- C2, amended: for every decoded document whose example numbers are unique
(the documented precondition on output-path uniqueness), every example E has,
after a successful run, a file named filename(E) whose content is exactly
E.markdown. -/
theorem completeness_with_unique_numbers (d : DirState) (es : List Example)
    (h : (es.map Example.number).Nodup) :
    ∃ dfin, update_main d (.success (es.map toRaw)) = .ok dfin ∧
      ∀ e ∈ es, readFile dfin (exampleFilename e) = some e.markdown := by
  refine ⟨es.foldl writeExample (resetFixtureDir d), update_main_success d es, ?_⟩
  intro e he
  obtain ⟨l1, l2, rfl⟩ := List.append_of_mem he
  rw [List.foldl_append, List.foldl_cons]
  have hnot : ∀ x ∈ l2, exampleFilename x ≠ exampleFilename e := by
    intro x hx heq
    have hnum : x.number = e.number := by
      have h1 := extractNumber_fixtureFilename x.number x.sectionLabel
      have h2 := extractNumber_fixtureFilename e.number e.sectionLabel
      rw [exampleFilename, exampleFilename] at heq
      rw [← h1, ← h2, heq]
    rw [List.map_append, List.map_cons, List.nodup_append] at h
    have hcons := h.2.1
    rw [List.nodup_cons] at hcons
    exact hcons.1 (hnum ▸ List.mem_map.mpr ⟨x, hx, rfl⟩)
  rw [readFile_foldl_of_not_written l2 _ _ hnot]
  exact readFile_writeFile_self _ _ _

theorem completeness_with_unique_numbers_witness :
    ((([⟨7, "Thematic breaks", "---"⟩] : List Example).map Example.number).Nodup) ∧
    (∃ dfin,
      update_main [] (.success (([⟨7, "Thematic breaks", "---"⟩] : List Example).map toRaw)) =
        .ok dfin ∧
      ∀ e ∈ ([⟨7, "Thematic breaks", "---"⟩] : List Example),
        readFile dfin (exampleFilename e) = some e.markdown) :=
  ⟨by decide, completeness_with_unique_numbers [] [⟨7, "Thematic breaks", "---"⟩] (by decide)⟩

/-- C3: filename is a pure function of (number, section): the section label is
lower-cased with every space replaced by an underscore, the number is rendered
in decimal, zero-padded to a minimum width of three digits and growing without
truncation beyond 999 (the padded digits decode back to the number), and the
result is the padded number, a dash, the normalized section and the suffix
.md; in particular 7 and Thematic breaks yield 007-thematic_breaks.md, and
1042 and Lists yield 1042-lists.md. -/
theorem naming_determinism :
    fixtureFilename 7 "Thematic breaks" = "007-thematic_breaks.md" ∧
    fixtureFilename 1042 "Lists" = "1042-lists.md" ∧
    (∀ n s, fixtureFilename n s = padNumber n ++ "-" ++ normalizeSection s ++ ".md") ∧
    (∀ s, (normalizeSection s).data =
      s.data.map fun c => if c.toLower = ' ' then '_' else c.toLower) ∧
    (∀ n, n ≤ 999 → (padNumber n).length = 3) ∧
    (∀ n, (padNumber n).length = max 3 (decimalChars n).length) ∧
    (∀ n s, extractNumber (fixtureFilename n s) = n) := by
  refine ⟨by decide, by decide, fun n s => rfl, fun s => rfl, ?_, ?_,
    extractNumber_fixtureFilename⟩
  · intro n hn
    have hL := decimalChars_length_le_three hn
    show (padChars n).length = 3
    rw [padChars, List.length_append, List.length_replicate]
    omega
  · intro n
    show (padChars n).length = max 3 (decimalChars n).length
    rw [padChars, List.length_append, List.length_replicate]
    omega

theorem naming_determinism_witness :
    7 ≤ 999 ∧ (padNumber 7).length = 3 :=
  ⟨by decide, naming_determinism.2.2.2.2.1 7 (by decide)⟩

/-- C4, counterexample: a payload of well-formed records in which the second
record lacks the markdown field aborts the run with a KeyError, but only after
the file of the first record has already been written, contradicting the claim
that no file of an earlier example is written. -/
theorem malformed_payload_counterexample :
    update_main []
        (.success [⟨some 1, some "Foo", some "text"⟩, ⟨some 2, some "Bar", none⟩]) =
      .keyError [("001-foo.md", "text")] ∧
    "001-foo.md" ∈ fileNames [("001-foo.md", "text")] :=
  ⟨by decide, by decide⟩

/-- C4, amended: a record missing the markdown field aborts the run with a
KeyError at that record, before the file of the offending record and the files
of any later record are written; the files of all records earlier in document
order have already been written at that point, because field access happens
inside the write loop, not in a whole-document decode preceding it. -/
theorem malformed_payload_aborts_at_offending_record (d : DirState) (es : List Example)
    (n : Nat) (s : String) (rest : List RawRecord) :
    update_main d (.success (es.map toRaw ++ ⟨some n, some s, none⟩ :: rest)) =
      .keyError (es.foldl writeExample (resetFixtureDir d)) := by
  show writeLoop (resetFixtureDir d) (es.map toRaw ++ ⟨some n, some s, none⟩ :: rest) = _
  rw [writeLoop_append_map]
  rfl

/-- C5: if the fetch raises a transport failure, the run ends in the
fetch-failed state whose directory is exactly the post-cleanup state, so no
fixture file is created: every file name present afterwards was present
before the run. -/
theorem fetch_failure_leaves_reset_state (d : DirState) :
    update_main d .transportFailure = .fetchFailed (resetFixtureDir d) ∧
    ∀ name, name ∈ fileNames (resetFixtureDir d) → name ∈ fileNames d := by
  refine ⟨rfl, ?_⟩
  intro name h
  rw [resetFixtureDir_eq] at h
  obtain ⟨f, hf, rfl⟩ := List.mem_map.mp h
  exact List.mem_map.mpr ⟨f, (List.mem_filter.mp hf).1, rfl⟩

theorem fetch_failure_leaves_reset_state_witness :
    update_main [("001-a.md", "x"), ("notes.txt", "y")] .transportFailure =
        .fetchFailed (resetFixtureDir [("001-a.md", "x"), ("notes.txt", "y")]) ∧
      "notes.txt" ∈ fileNames [("001-a.md", "x"), ("notes.txt", "y")] :=
  ⟨(fetch_failure_leaves_reset_state [("001-a.md", "x"), ("notes.txt", "y")]).1,
    (fetch_failure_leaves_reset_state [("001-a.md", "x"), ("notes.txt", "y")]).2
      "notes.txt" (by decide)⟩

/-- C6: running main twice in succession against the same decoded document
yields the same fixture directory both times: the second run reproduces the
result of the first run exactly. -/
theorem idempotent_regeneration (d : DirState) (es : List Example) :
    ∃ d1, update_main d (.success (es.map toRaw)) = .ok d1 ∧
      update_main d1 (.success (es.map toRaw)) = .ok d1 := by
  refine ⟨es.foldl writeExample (resetFixtureDir d), update_main_success d es, ?_⟩
  rw [update_main_success, resetFixtureDir_foldl, resetFixtureDir_idem]

/-- C7: the reset phase deletes every file of the directory whose name matches
one of the three fixture-artifact patterns, keeps every file whose name
matches none of them, and is a no-op that cannot fail on an empty directory;
in this model the directory holds only the immediate entries, matching the
non-recursive glob of the source. -/
theorem reset_phase_contract (d : DirState) :
    (∀ f ∈ d, matchesFixturePattern f.1 = true → f ∉ resetFixtureDir d) ∧
    (∀ f ∈ d, matchesFixturePattern f.1 = false → f ∈ resetFixtureDir d) ∧
    resetFixtureDir ([] : DirState) = [] := by
  refine ⟨?_, ?_, rfl⟩
  · intro f _ hm hmem
    have := mem_resetFixtureDir_not_matches hmem
    rw [hm] at this
    cases this
  · intro f hf hm
    rw [resetFixtureDir_eq]
    exact List.mem_filter.mpr ⟨hf, by simp [hm]⟩

theorem reset_phase_contract_witness :
    ("a.expected", "x") ∈ ([("a.expected", "x"), ("b.txt", "y")] : DirState) ∧
    matchesFixturePattern "a.expected" = true ∧
    ("a.expected", "x") ∉ resetFixtureDir [("a.expected", "x"), ("b.txt", "y")] :=
  ⟨by decide, by decide,
    (reset_phase_contract [("a.expected", "x"), ("b.txt", "y")]).1 ("a.expected", "x")
      (by decide) (by decide)⟩

/-- C8: if two examples of the decoded document normalize to the same file
name, the later write silently overwrites the earlier one: after a successful
run, the file at that name holds the markdown of the latest example in
document order with that name; the generator neither verifies nor repairs
file-name uniqueness. -/
theorem duplicate_filename_last_write_wins (d : DirState) (es1 es2 es3 : List Example)
    (e1 e2 : Example) (hsame : exampleFilename e1 = exampleFilename e2)
    (hlast : ∀ e ∈ es3, exampleFilename e ≠ exampleFilename e2) :
    ∃ dfin,
      update_main d (.success ((es1 ++ e1 :: (es2 ++ e2 :: es3)).map toRaw)) = .ok dfin ∧
      readFile dfin (exampleFilename e2) = some e2.markdown := by
  refine ⟨_, update_main_success d _, ?_⟩
  rw [List.foldl_append, List.foldl_cons, List.foldl_append, List.foldl_cons]
  rw [readFile_foldl_of_not_written es3 _ _ hlast]
  exact readFile_writeFile_self _ _ _

theorem duplicate_filename_last_write_wins_witness :
    exampleFilename (⟨1, "Sec", "first"⟩ : Example) =
        exampleFilename (⟨1, "Sec", "second"⟩ : Example) ∧
    (∃ dfin,
      update_main []
          (.success ((([] : List Example) ++ (⟨1, "Sec", "first"⟩ : Example) ::
            (([] : List Example) ++ (⟨1, "Sec", "second"⟩ : Example) ::
              ([] : List Example))).map toRaw)) = .ok dfin ∧
      readFile dfin (exampleFilename (⟨1, "Sec", "second"⟩ : Example)) = some "second") :=
  ⟨by decide,
    duplicate_filename_last_write_wins [] [] [] [] ⟨1, "Sec", "first"⟩ ⟨1, "Sec", "second"⟩
      (by decide) (by simp)⟩

/-- C9: the two copies of the fixture synchronization script are behaviorally
equivalent: on the same fetched document and the same initial directory, main
of the pulldown-cmark-tty copy produces exactly the same run result, deleting
the same files and writing the same (file name, content) pairs. -/
theorem scripts_equivalent (d : DirState) (fetch : FetchOutcome) :
    update_mainR d fetch = update_main d fetch := by
  have hloop : ∀ (rs : List RawRecord) (d0 : DirState), writeLoopR d0 rs = writeLoop d0 rs := by
    intro rs
    induction rs with
    | nil => intro d0; rfl
    | cons r rs ih =>
      intro d0
      obtain ⟨ef, sf, mf⟩ := r
      cases ef with
      | none => rfl
      | some n =>
        cases sf with
        | none => rfl
        | some s =>
          cases mf with
          | none => rfl
          | some m => exact ih _
  cases fetch with
  | transportFailure => rfl
  | success payload => exact hloop payload _

/-- C10: the observable behavior of the prerelease hook does not depend on the
value of PREV_VERSION: two runs differing only in that value (both set)
perform the same changelog rewrite, the same git invocations and the same
output; an absent PREV_VERSION only makes the hook abort with a KeyError. -/
theorem prev_version_noninterference :
    (∀ (p1 p2 : String) (nv dry : Option String) (changelog today : String),
      prerelease_hook_main ⟨some p1, nv, dry⟩ changelog today =
        prerelease_hook_main ⟨some p2, nv, dry⟩ changelog today) ∧
    (∀ (nv dry : Option String) (changelog today : String),
      prerelease_hook_main ⟨none, nv, dry⟩ changelog today =
        .error "KeyError: PREV_VERSION") :=
  ⟨fun _ _ _ _ _ _ => rfl, fun _ _ _ _ => rfl⟩
